import Mathlib

/-!
Verification development for the HRNet backbone definition in
`ppcls/arch/backbone/legendary_models/hrnet.py`.

The Python file builds a static module graph (convolution/batch-norm layers,
residual blocks, multi-resolution branches, fusion layers, squeeze-excitation
attention and a classification head) and its `forward` methods thread symbolic
tensors through that graph.  We embed the construction shallowly:

* layer hyper-parameters become plain data (`ConvBNSpec`, `SELayer`, ...);
* `__init__` methods become `*.init` functions building those records,
  mirroring the Python loops (`List.range`, `flatMap`, threading of
  `pre_num_filters`, ...);
* `forward` methods become functions over a symbolic `Tensor` expression
  type; Python list indexing that could raise `IndexError` is modelled with
  `List.getElem?` inside the `Option` monad;
* the numeric content of the squeeze-excitation gate is modelled separately
  over an arbitrary linearly ordered field together with an `exp` function,
  standing for the framework primitives `F.sigmoid`, `F.relu` and the
  global average pool.
-/

/-- Activation string used throughout the source (`act="relu"` default). -/
def reluStr : String := "relu"

/-- Interpolation mode used by `FuseLayers.forward` (`mode="nearest"`). -/
def nearestStr : String := "nearest"

/-- Hyper-parameters of a `ConvBNLayer` (conv + batch norm + optional
activation).  `act = none` models Python `act=None`. -/
structure ConvBNSpec where
  num_channels : Nat
  num_filters : Nat
  filter_size : Nat
  stride : Nat
  act : Option String
deriving DecidableEq, Repr, Inhabited

/-- Hyper-parameters of an `SELayer` as recorded by `SELayer.__init__`:
the squeeze `Linear` maps `num_channels` to `med_ch = int(num_channels /
reduction_ratio)` features and the excitation `Linear` maps `med_ch` to
`num_filters` features. -/
structure SELayer where
  num_channels : Nat
  num_filters : Nat
  reduction : Nat
  squeeze_in : Nat
  squeeze_out : Nat
  excitation_in : Nat
  excitation_out : Nat
deriving DecidableEq, Repr, Inhabited

/-- `SELayer.__init__(num_channels, num_filters, reduction_ratio)`:
`med_ch = int(num_channels / reduction_ratio)` (floor division on
non-negative values). -/
def SELayer.init (num_channels num_filters reduction : Nat) : SELayer :=
  { num_channels := num_channels
    num_filters := num_filters
    reduction := reduction
    squeeze_in := num_channels
    squeeze_out := num_channels / reduction
    excitation_in := num_channels / reduction
    excitation_out := num_filters }

/-- Symbolic tensor expressions: one constructor per tensor operation used by
the `forward` methods of the source file. -/
inductive Tensor where
  | input : Nat → Tensor
  | convBN : ConvBNSpec → Tensor → Tensor
  | add : Tensor → Tensor → Tensor
  | relu : Tensor → Tensor
  | upsample : Nat → String → Tensor → Tensor
  | seGate : SELayer → Tensor → Tensor
  | avgpool : Tensor → Tensor
  | reshape : Tensor → Tensor
  | linear : Nat → Nat → Tensor → Tensor
deriving DecidableEq, Repr, Inhabited

/-- Channel count of a symbolic tensor, given an assignment `env` of channel
counts to the free inputs.  Channel-preserving operations (`add`, `relu`,
`upsample`, `seGate`, `avgpool`) keep the channel count of their (first)
argument; a `convBN` has `num_filters` output channels. -/
def chOf (env : Nat → Nat) : Tensor → Nat
  | .input i => env i
  | .convBN f _ => f.num_filters
  | .add a _ => chOf env a
  | .relu a => chOf env a
  | .upsample _ _ a => chOf env a
  | .seGate _ a => chOf env a
  | .avgpool a => chOf env a
  | .reshape a => chOf env a
  | .linear _ o _ => o

/-- `if self.has_se: y = self.se(y)` as used by both residual block types. -/
def seApply (has_se : Bool) (se : Option SELayer) (y : Tensor) : Tensor :=
  if has_se then
    match se with
    | some s => Tensor.seGate s y
    | none => y
  else y

/-- `if self.downsample: residual = self.conv_down(input)` as used by both
residual block types. -/
def downApply (downsample : Bool) (conv_down : Option ConvBNSpec)
    (input residual : Tensor) : Tensor :=
  if downsample then
    match conv_down with
    | some f => Tensor.convBN f input
    | none => residual
  else residual

/-- Data of a `BottleneckBlock` as built by `BottleneckBlock.__init__`. -/
structure BottleneckBlock where
  num_channels : Nat
  num_filters : Nat
  stride : Nat
  has_se : Bool
  downsample : Bool
  conv1 : ConvBNSpec
  conv2 : ConvBNSpec
  conv3 : ConvBNSpec
  conv_down : Option ConvBNSpec
  se : Option SELayer
deriving DecidableEq, Repr, Inhabited

/-- `BottleneckBlock.__init__(num_channels, num_filters, has_se, stride=1,
downsample=False)`. -/
def BottleneckBlock.init (num_channels num_filters : Nat) (has_se : Bool)
    (stride : Nat) (downsample : Bool) : BottleneckBlock :=
  { num_channels := num_channels
    num_filters := num_filters
    stride := stride
    has_se := has_se
    downsample := downsample
    conv1 := ⟨num_channels, num_filters, 1, 1, some reluStr⟩
    conv2 := ⟨num_filters, num_filters, 3, stride, some reluStr⟩
    conv3 := ⟨num_filters, num_filters * 4, 1, 1, none⟩
    conv_down :=
      if downsample then some ⟨num_channels, num_filters * 4, 1, 1, none⟩
      else none
    se :=
      if has_se then some (SELayer.init (num_filters * 4) (num_filters * 4) 16)
      else none }

/-- `BottleneckBlock.forward`. -/
def BottleneckBlock.forward (b : BottleneckBlock) (x : Tensor) : Tensor :=
  let conv1 := Tensor.convBN b.conv1 x
  let conv2 := Tensor.convBN b.conv2 conv1
  let conv3 := Tensor.convBN b.conv3 conv2
  let residual := downApply b.downsample b.conv_down x x
  let conv3b := seApply b.has_se b.se conv3
  Tensor.relu (Tensor.add residual conv3b)

/-- Data of a `BasicBlock` as built by `BasicBlock.__init__`. -/
structure BasicBlock where
  num_channels : Nat
  num_filters : Nat
  stride : Nat
  has_se : Bool
  downsample : Bool
  conv1 : ConvBNSpec
  conv2 : ConvBNSpec
  conv_down : Option ConvBNSpec
  se : Option SELayer
deriving DecidableEq, Repr, Inhabited

/-- `BasicBlock.__init__(num_channels, num_filters, stride=1, has_se=False,
downsample=False)`. -/
def BasicBlock.init (num_channels num_filters stride : Nat)
    (has_se downsample : Bool) : BasicBlock :=
  { num_channels := num_channels
    num_filters := num_filters
    stride := stride
    has_se := has_se
    downsample := downsample
    conv1 := ⟨num_channels, num_filters, 3, stride, some reluStr⟩
    conv2 := ⟨num_filters, num_filters, 3, 1, none⟩
    conv_down :=
      if downsample then some ⟨num_channels, num_filters * 4, 1, 1, some reluStr⟩
      else none
    se :=
      if has_se then some (SELayer.init num_filters num_filters 16)
      else none }

/-- `BasicBlock.forward`. -/
def BasicBlock.forward (b : BasicBlock) (input : Tensor) : Tensor :=
  let conv1 := Tensor.convBN b.conv1 input
  let conv2 := Tensor.convBN b.conv2 conv1
  let residual := downApply b.downsample b.conv_down input input
  let conv2b := seApply b.has_se b.se conv2
  Tensor.relu (Tensor.add residual conv2b)

/-- Data of `Layer1`: four bottleneck blocks. -/
structure Layer1 where
  bottleneck_block_list : List BottleneckBlock
deriving DecidableEq, Repr, Inhabited

/-- `Layer1.__init__(num_channels, has_se)`: block `i` (for `i` in
`range(4)`) has input channels `num_channels` if `i == 0` else `256`,
`num_filters=64`, `stride=1` and `downsample=True` exactly for `i == 0`. -/
def Layer1.init (num_channels : Nat) (has_se : Bool) : Layer1 :=
  { bottleneck_block_list := (List.range 4).map (fun i =>
      BottleneckBlock.init (if i = 0 then num_channels else 256) 64 has_se 1
        (decide (i = 0))) }

/-- `Layer1.forward`: sequential application of the four blocks. -/
def Layer1.forward (m : Layer1) (x : Tensor) : Tensor :=
  m.bottleneck_block_list.foldl (fun y b => b.forward y) x

/-- Data of a `TransitionLayer`: `conv_bn_func_list`, where `none` models the
Python `None` entry (identity branch). -/
structure TransitionLayer where
  conv_bn_func_list : List (Option ConvBNSpec)
deriving DecidableEq, Repr, Inhabited

/-- `TransitionLayer.__init__(in_channels, out_channels)`: for each
`i in range(len(out_channels))`, entry `i` is `None` when `i <
len(in_channels)` and the channel counts already agree, a 3x3 stride-1
`ConvBNLayer` when they differ, and a 3x3 stride-2 `ConvBNLayer` from
`in_channels[-1]` for the new branches `i >= len(in_channels)`. -/
def TransitionLayer.init (in_channels out_channels : List Nat) : TransitionLayer :=
  { conv_bn_func_list := (List.range out_channels.length).map (fun i =>
      if i < in_channels.length then
        if in_channels.getD i 0 ≠ out_channels.getD i 0 then
          some ⟨in_channels.getD i 0, out_channels.getD i 0, 3, 1, some reluStr⟩
        else none
      else
        some ⟨in_channels.getD (in_channels.length - 1) 0, out_channels.getD i 0,
          3, 2, some reluStr⟩) }

/-- Loop body of `TransitionLayer.forward`: `for idx, conv_bn_func in
enumerate(self.conv_bn_func_list)`; `x[idx]` is modelled by `x[idx]?` and the
Python negative index `x[-1]` by `x.getLast?`. -/
def transitionGo (x : List Tensor) : List (Option ConvBNSpec) → Nat → Option (List Tensor)
  | [], _ => some []
  | none :: fs, idx =>
    match x[idx]? with
    | none => none
    | some xi => (transitionGo x fs (idx + 1)).map (fun outs => xi :: outs)
  | some f :: fs, idx =>
    match (if idx < x.length then x[idx]? else x.getLast?) with
    | none => none
    | some xi =>
      (transitionGo x fs (idx + 1)).map (fun outs => Tensor.convBN f xi :: outs)

/-- `TransitionLayer.forward`. -/
def TransitionLayer.forward (m : TransitionLayer) (x : List Tensor) : Option (List Tensor) :=
  transitionGo x m.conv_bn_func_list 0

/-- Data of `Branches`: one list of `BasicBlock`s per output branch. -/
structure Branches where
  basic_block_list : List (List BasicBlock)
deriving DecidableEq, Repr, Inhabited

/-- `Branches.__init__(block_num, in_channels, out_channels, has_se)`: branch
`i` gets `block_num` basic blocks; block `j` reads `in_channels[i]` when
`j == 0` and `out_channels[i]` otherwise.  The `downsample` argument is never
passed, so every block is built with its default `downsample=False`. -/
def Branches.init (block_num : Nat) (in_channels out_channels : List Nat)
    (has_se : Bool) : Branches :=
  { basic_block_list := (List.range out_channels.length).map (fun i =>
      (List.range block_num).map (fun j =>
        BasicBlock.init (if j = 0 then in_channels.getD i 0 else out_channels.getD i 0)
          (out_channels.getD i 0) 1 has_se false)) }

/-- Loop body of `Branches.forward`: `for idx, xi in enumerate(x)` with
`self.basic_block_list[idx]` modelled by `[idx]?`. -/
def branchesGo (blocks : List (List BasicBlock)) : List Tensor → Nat → Option (List Tensor)
  | [], _ => some []
  | x :: xs, idx =>
    match blocks[idx]? with
    | none => none
    | some bl =>
      (branchesGo blocks xs (idx + 1)).map
        (fun outs => bl.foldl (fun conv b => b.forward conv) x :: outs)

/-- `Branches.forward`. -/
def Branches.forward (m : Branches) (x : List Tensor) : Option (List Tensor) :=
  branchesGo m.basic_block_list x 0

/-- Downsampling chain appended by `FuseLayers.__init__` for a pair `j < i`:
`m = i - j` stride-2 3x3 convolutions threading `pre_num_filters`, starting at
`pre` (initially `in_channels[j]`); every chain layer except the last maps to
`outJ = out_channels[j]` with relu, the last maps to `outI = out_channels[i]`
with no activation. -/
def fuseDownChainAux (outI outJ : Nat) : Nat → Nat → List ConvBNSpec
  | _, 0 => []
  | pre, 1 => [⟨pre, outI, 3, 2, none⟩]
  | pre, m + 2 => ⟨pre, outJ, 3, 2, some reluStr⟩ :: fuseDownChainAux outI outJ outJ (m + 1)

/-- Downsampling chain for output `i` and input `j` (`j < i`). -/
def fuseDownChain (in_ch out_ch : List Nat) (i j : Nat) : List ConvBNSpec :=
  fuseDownChainAux (out_ch.getD i 0) (out_ch.getD j 0) (in_ch.getD j 0) (i - j)

/-- Sub-list of `residual_func_list` contributed by the `(i, j)` iteration of
the `FuseLayers.__init__` loops: a single 1x1 layer for `j > i`, the
downsampling chain for `j < i`, nothing for `j = i`. -/
def fuseSeg (in_ch out_ch : List Nat) (i j : Nat) : List ConvBNSpec :=
  if j > i then [⟨in_ch.getD j 0, out_ch.getD i 0, 1, 1, none⟩]
  else if j < i then fuseDownChain in_ch out_ch i j
  else []

/-- Sub-list of `residual_func_list` contributed by one output index `i`. -/
def fuseRow (in_ch out_ch : List Nat) (i : Nat) : List ConvBNSpec :=
  (List.range in_ch.length).flatMap (fuseSeg in_ch out_ch i)

/-- The full `residual_func_list` built by `FuseLayers.__init__`. -/
def fuseBuild (in_ch out_ch : List Nat) (actual : Nat) : List ConvBNSpec :=
  (List.range actual).flatMap (fuseRow in_ch out_ch)

/-- Inner `for k in range(i - j)` loop of `FuseLayers.forward`: applies `m`
consecutive entries of `funcs` starting at index `idx`, returning the result
and the next index. -/
def applyChain (funcs : List ConvBNSpec) : Nat → Nat → Tensor → Option (Tensor × Nat)
  | idx, 0, y => some (y, idx)
  | idx, m + 1, y =>
    match funcs[idx]? with
    | none => none
    | some f => applyChain funcs (idx + 1) m (Tensor.convBN f y)

/-- Pure sequential application of a list of conv-bn layers. -/
def chainApply (specs : List ConvBNSpec) (x : Tensor) : Tensor :=
  specs.foldl (fun y f => Tensor.convBN f y) x

/-- Inner `for j in range(len(self._in_channels))` loop of
`FuseLayers.forward`, carrying `residual` and `residual_func_idx`. -/
def fuseJLoop (funcs : List ConvBNSpec) (input : List Tensor) (i : Nat) :
    List Nat → Tensor → Nat → Option (Tensor × Nat)
  | [], residual, idx => some (residual, idx)
  | j :: js, residual, idx =>
    if j > i then
      match funcs[idx]?, input[j]? with
      | some f, some xj =>
        fuseJLoop funcs input i js
          (Tensor.add residual
            (Tensor.upsample (2 ^ (j - i)) nearestStr (Tensor.convBN f xj)))
          (idx + 1)
      | _, _ => none
    else if j < i then
      match input[j]? with
      | none => none
      | some xj =>
        match applyChain funcs idx (i - j) xj with
        | none => none
        | some (y, idx2) => fuseJLoop funcs input i js (Tensor.add residual y) idx2
    else fuseJLoop funcs input i js residual idx

/-- Outer `for i in range(self._actual_ch)` loop of `FuseLayers.forward`. -/
def fuseILoop (funcs : List ConvBNSpec) (input : List Tensor) (n : Nat) :
    List Nat → Nat → Option (List Tensor × Nat)
  | [], idx => some ([], idx)
  | i :: is, idx =>
    match input[i]? with
    | none => none
    | some xi =>
      match fuseJLoop funcs input i (List.range n) xi idx with
      | none => none
      | some (residual, idx2) =>
        match fuseILoop funcs input n is idx2 with
        | none => none
        | some (outs, idx3) => some (Tensor.relu residual :: outs, idx3)

/-- Data of `FuseLayers`. -/
structure FuseLayers where
  in_channels : List Nat
  actual_ch : Nat
  residual_func_list : List ConvBNSpec
deriving DecidableEq, Repr, Inhabited

/-- `FuseLayers.__init__(in_channels, out_channels, multi_scale_output)`:
`_actual_ch = len(in_channels) if multi_scale_output else 1`. -/
def FuseLayers.init (in_channels out_channels : List Nat)
    (multi_scale_output : Bool) : FuseLayers :=
  { in_channels := in_channels
    actual_ch := if multi_scale_output then in_channels.length else 1
    residual_func_list :=
      fuseBuild in_channels out_channels
        (if multi_scale_output then in_channels.length else 1) }

/-- `FuseLayers.forward`, instrumented with the final value of
`residual_func_idx`. -/
def FuseLayers.forwardAux (m : FuseLayers) (input : List Tensor) :
    Option (List Tensor × Nat) :=
  fuseILoop m.residual_func_list input m.in_channels.length (List.range m.actual_ch) 0

/-- `FuseLayers.forward`. -/
def FuseLayers.forward (m : FuseLayers) (input : List Tensor) : Option (List Tensor) :=
  (m.forwardAux input).map Prod.fst

/-- One `j` step of the fused-output formula: for `j > i` the contribution is
`input[j]` through the 1x1 conv-bn then nearest upsampling by `2^(j-i)`; for
`j < i` it is `input[j]` through the downsampling chain; `j = i` contributes
nothing. -/
def fuseStep (in_ch out_ch : List Nat) (input : List Tensor) (i : Nat)
    (residual : Tensor) (j : Nat) : Tensor :=
  if j > i then
    Tensor.add residual
      (Tensor.upsample (2 ^ (j - i)) nearestStr
        (Tensor.convBN ⟨in_ch.getD j 0, out_ch.getD i 0, 1, 1, none⟩
          (input.getD j (Tensor.input 0))))
  else if j < i then
    Tensor.add residual
      (chainApply (fuseDownChain in_ch out_ch i j) (input.getD j (Tensor.input 0)))
  else residual

/-- Closed-form fused output `i`: relu of the branch's own value plus the
resampled contribution of every other branch. -/
def fuseOut (in_ch out_ch : List Nat) (input : List Tensor) (i : Nat) : Tensor :=
  Tensor.relu
    ((List.range in_ch.length).foldl (fuseStep in_ch out_ch input i)
      (input.getD i (Tensor.input 0)))

/-- Data of a `HighResolutionModule`: parallel branches followed by fusion. -/
structure HighResolutionModule where
  branches_func : Branches
  fuse_func : FuseLayers
deriving DecidableEq, Repr, Inhabited

/-- `HighResolutionModule.__init__(num_channels, num_filters, has_se,
multi_scale_output)`: `Branches(block_num=4, ...)` and
`FuseLayers(in_channels=num_filters, out_channels=num_filters, ...)`. -/
def HighResolutionModule.init (num_channels num_filters : List Nat)
    (has_se multi_scale_output : Bool) : HighResolutionModule :=
  { branches_func := Branches.init 4 num_channels num_filters has_se
    fuse_func := FuseLayers.init num_filters num_filters multi_scale_output }

/-- `HighResolutionModule.forward`. -/
def HighResolutionModule.forward (m : HighResolutionModule) (input : List Tensor) :
    Option (List Tensor) :=
  match m.branches_func.forward input with
  | none => none
  | some out => m.fuse_func.forward out

/-- Data of a `Stage`: `_num_modules` and `stage_func_list`. -/
structure Stage where
  num_modules : Nat
  stage_func_list : List HighResolutionModule
deriving DecidableEq, Repr, Inhabited

/-- `Stage.__init__(num_channels, num_modules, num_filters, has_se,
multi_scale_output=True)`: module `i` is built with `multi_scale_output=False`
exactly when `i == num_modules - 1` and `multi_scale_output` was `False`. -/
def Stage.init (num_channels : List Nat) (num_modules : Nat)
    (num_filters : List Nat) (has_se multi_scale_output : Bool) : Stage :=
  { num_modules := num_modules
    stage_func_list := (List.range num_modules).map (fun i =>
      if i = num_modules - 1 ∧ multi_scale_output = false then
        HighResolutionModule.init num_channels num_filters has_se false
      else HighResolutionModule.init num_channels num_filters has_se true) }

/-- Loop of `Stage.forward`: `for idx in range(self._num_modules): out =
self.stage_func_list[idx](out)`, with the list access modelled by `[idx]?`. -/
def stageLoop (funcs : List HighResolutionModule) : Nat → Nat → List Tensor →
    Option (List Tensor)
  | _, 0, out => some out
  | idx, fuel + 1, out =>
    match funcs[idx]? with
    | none => none
    | some f =>
      match f.forward out with
      | none => none
      | some out2 => stageLoop funcs (idx + 1) fuel out2

/-- `Stage.forward`. -/
def Stage.forward (m : Stage) (input : List Tensor) : Option (List Tensor) :=
  stageLoop m.stage_func_list 0 m.num_modules input

/-- Plain sequential application of a list of high-resolution modules. -/
def applyModules : List HighResolutionModule → List Tensor → Option (List Tensor)
  | [], x => some x
  | f :: fs, x =>
    match f.forward x with
    | none => none
    | some y => applyModules fs y

/-- Data of `LastClsOut`. -/
structure LastClsOut where
  func_list : List BottleneckBlock
deriving DecidableEq, Repr, Inhabited

/-- `LastClsOut.__init__(num_channel_list, has_se, num_filters_list)`: one
`BottleneckBlock` per entry, with `downsample=True`. -/
def LastClsOut.init (num_channel_list : List Nat) (has_se : Bool)
    (num_filters_list : List Nat) : LastClsOut :=
  { func_list := (List.range num_channel_list.length).map (fun idx =>
      BottleneckBlock.init (num_channel_list.getD idx 0)
        (num_filters_list.getD idx 0) has_se 1 true) }

/-- Loop of `LastClsOut.forward`: `for idx, input in enumerate(inputs)` with
`self.func_list[idx]` modelled by `[idx]?`. -/
def lastClsGo (funcs : List BottleneckBlock) : List Tensor → Nat → Option (List Tensor)
  | [], _ => some []
  | x :: xs, idx =>
    match funcs[idx]? with
    | none => none
    | some f => (lastClsGo funcs xs (idx + 1)).map (fun outs => f.forward x :: outs)

/-- `LastClsOut.forward`. -/
def LastClsOut.forward (m : LastClsOut) (inputs : List Tensor) : Option (List Tensor) :=
  lastClsGo m.func_list inputs 0

/-- The `self.channels` dictionary of `HRNet.__init__`; `none` models the
`KeyError` raised on any other width. -/
def channelsTable (width : Nat) : Option (List Nat × List Nat × List Nat) :=
  if width = 18 then some ([18, 36], [18, 36, 72], [18, 36, 72, 144])
  else if width = 30 then some ([30, 60], [30, 60, 120], [30, 60, 120, 240])
  else if width = 32 then some ([32, 64], [32, 64, 128], [32, 64, 128, 256])
  else if width = 40 then some ([40, 80], [40, 80, 160], [40, 80, 160, 320])
  else if width = 44 then some ([44, 88], [44, 88, 176], [44, 88, 176, 352])
  else if width = 48 then some ([48, 96], [48, 96, 192], [48, 96, 192, 384])
  else if width = 60 then some ([60, 120], [60, 120, 240], [60, 120, 240, 480])
  else if width = 64 then some ([64, 128], [64, 128, 256], [64, 128, 256, 512])
  else none

/-- Data of the whole `HRNet` network. -/
structure HRNet where
  width : Nat
  has_se : Bool
  class_dim : Nat
  channels_2 : List Nat
  channels_3 : List Nat
  channels_4 : List Nat
  conv_layer1_1 : ConvBNSpec
  conv_layer1_2 : ConvBNSpec
  la1 : Layer1
  tr1 : TransitionLayer
  st2 : Stage
  tr2 : TransitionLayer
  st3 : Stage
  tr3 : TransitionLayer
  st4 : Stage
  last_cls : LastClsOut
  cls_head_conv_list : List ConvBNSpec
  conv_last : ConvBNSpec
deriving DecidableEq, Repr, Inhabited

/-- `HRNet.__init__(width=18, has_se=False, class_dim=1000)`, with
`num_modules_2, num_modules_3, num_modules_4 = 1, 4, 3`. -/
def HRNet.init (width : Nat) (has_se : Bool) (class_dim : Nat) : Option HRNet :=
  match channelsTable width with
  | none => none
  | some (channels_2, channels_3, channels_4) =>
    some
      { width := width
        has_se := has_se
        class_dim := class_dim
        channels_2 := channels_2
        channels_3 := channels_3
        channels_4 := channels_4
        conv_layer1_1 := ⟨3, 64, 3, 2, some reluStr⟩
        conv_layer1_2 := ⟨64, 64, 3, 2, some reluStr⟩
        la1 := Layer1.init 64 has_se
        tr1 := TransitionLayer.init [256] channels_2
        st2 := Stage.init channels_2 1 channels_2 has_se true
        tr2 := TransitionLayer.init channels_2 channels_3
        st3 := Stage.init channels_3 4 channels_3 has_se true
        tr3 := TransitionLayer.init channels_3 channels_4
        st4 := Stage.init channels_4 3 channels_4 has_se true
        last_cls := LastClsOut.init channels_4 has_se [32, 64, 128, 256]
        cls_head_conv_list := (List.range 3).map (fun idx =>
          ⟨([32, 64, 128, 256].getD idx 0) * 4, [256, 512, 1024].getD idx 0,
            3, 2, some reluStr⟩)
        conv_last := ⟨1024, 2048, 1, 1, some reluStr⟩ }

/-- Classification-head loop of `HRNet.forward`: `for idx in range(3): y =
paddle.add(last_cls[idx + 1], self.cls_head_conv_list[idx](y))`. -/
def clsHeadLoop (convs : List ConvBNSpec) (last_cls : List Tensor) :
    Nat → Nat → Tensor → Option Tensor
  | _, 0, y => some y
  | idx, fuel + 1, y =>
    match last_cls[idx + 1]?, convs[idx]? with
    | some t, some c =>
      clsHeadLoop convs last_cls (idx + 1) fuel (Tensor.add t (Tensor.convBN c y))
    | _, _ => none

/-- `HRNet.forward`. -/
def HRNet.forward (m : HRNet) (input : Tensor) : Option Tensor := do
  let conv1 := Tensor.convBN m.conv_layer1_1 input
  let conv2 := Tensor.convBN m.conv_layer1_2 conv1
  let la1 := m.la1.forward conv2
  let tr1 ← m.tr1.forward [la1]
  let st2 ← m.st2.forward tr1
  let tr2 ← m.tr2.forward st2
  let st3 ← m.st3.forward tr2
  let tr3 ← m.tr3.forward st3
  let st4 ← m.st4.forward tr3
  let last_cls ← m.last_cls.forward st4
  let y0 ← last_cls[0]?
  let y1 ← clsHeadLoop m.cls_head_conv_list last_cls 0 3 y0
  let y2 := Tensor.convBN m.conv_last y1
  let y3 := Tensor.reshape (Tensor.avgpool y2)
  pure (Tensor.linear 2048 m.class_dim y3)

/-- `HRNet_W18_C(**args)`. -/
def HRNet_W18_C (has_se : Bool) (class_dim : Nat) : Option HRNet :=
  HRNet.init 18 has_se class_dim

/-- `HRNet_W30_C(**args)`. -/
def HRNet_W30_C (has_se : Bool) (class_dim : Nat) : Option HRNet :=
  HRNet.init 30 has_se class_dim

/-- `HRNet_W32_C(**args)`. -/
def HRNet_W32_C (has_se : Bool) (class_dim : Nat) : Option HRNet :=
  HRNet.init 32 has_se class_dim

/-- `HRNet_W40_C(**args)`. -/
def HRNet_W40_C (has_se : Bool) (class_dim : Nat) : Option HRNet :=
  HRNet.init 40 has_se class_dim

/-- `HRNet_W44_C(**args)`. -/
def HRNet_W44_C (has_se : Bool) (class_dim : Nat) : Option HRNet :=
  HRNet.init 44 has_se class_dim

/-- `HRNet_W48_C(**args)`. -/
def HRNet_W48_C (has_se : Bool) (class_dim : Nat) : Option HRNet :=
  HRNet.init 48 has_se class_dim

/-- `HRNet_W60_C(**args)`. -/
def HRNet_W60_C (has_se : Bool) (class_dim : Nat) : Option HRNet :=
  HRNet.init 60 has_se class_dim

/-- `HRNet_W64_C(**args)`. -/
def HRNet_W64_C (has_se : Bool) (class_dim : Nat) : Option HRNet :=
  HRNet.init 64 has_se class_dim

/-- `SE_HRNet_W18_C(**args)`: `has_se=True`. -/
def SE_HRNet_W18_C (class_dim : Nat) : Option HRNet := HRNet.init 18 true class_dim

/-- `SE_HRNet_W30_C(**args)`: `has_se=True`. -/
def SE_HRNet_W30_C (class_dim : Nat) : Option HRNet := HRNet.init 30 true class_dim

/-- `SE_HRNet_W32_C(**args)`: `has_se=True`. -/
def SE_HRNet_W32_C (class_dim : Nat) : Option HRNet := HRNet.init 32 true class_dim

/-- `SE_HRNet_W40_C(**args)`: `has_se=True`. -/
def SE_HRNet_W40_C (class_dim : Nat) : Option HRNet := HRNet.init 40 true class_dim

/-- `SE_HRNet_W44_C(**args)`: `has_se=True`. -/
def SE_HRNet_W44_C (class_dim : Nat) : Option HRNet := HRNet.init 44 true class_dim

/-- `SE_HRNet_W48_C(**args)`: `has_se=True`. -/
def SE_HRNet_W48_C (class_dim : Nat) : Option HRNet := HRNet.init 48 true class_dim

/-- `SE_HRNet_W60_C(**args)`: `has_se=True`. -/
def SE_HRNet_W60_C (class_dim : Nat) : Option HRNet := HRNet.init 60 true class_dim

/-- `SE_HRNet_W64_C(**args)`: `has_se=True`. -/
def SE_HRNet_W64_C (class_dim : Nat) : Option HRNet := HRNet.init 64 true class_dim

/-- The per-variant channel table row predicted for width `w`: stage lists
`[w, 2w]`, `[w, 2w, 4w]`, `[w, 2w, 4w, 8w]`. -/
def widthChannels (o : Option HRNet) (w : Nat) : Prop :=
  o.map (fun m => (m.channels_2, m.channels_3, m.channels_4)) =
    some ([w, 2 * w], [w, 2 * w, 4 * w], [w, 2 * w, 4 * w, 8 * w])

/-- Numeric model of the squeeze-excitation layer over an arbitrary linearly
ordered field `K` (standing for the reals computed by the framework), with an
abstract exponential `expf`.  Parameters of the two `Linear` sublayers of
`SELayer`, for `num_channels = num_filters = C` (the only instantiation used
in this file) and `med` intermediate features. -/
structure SEParams (K : Type) (C med : Nat) where
  squeeze_w : Fin med → Fin C → K
  squeeze_b : Fin med → K
  excitation_w : Fin C → Fin med → K
  excitation_b : Fin C → K

/-- Scalar relu, `F.relu`. -/
def reluK {K : Type} [LinearOrderedField K] (t : K) : K := max t 0

/-- Scalar sigmoid `F.sigmoid`, with the exponential abstracted as `expf`. -/
def sigmoidK {K : Type} [LinearOrderedField K] (expf : K → K) (t : K) : K :=
  1 / (1 + expf (-t))

/-- `AdaptiveAvgPool2D(1)` followed by `paddle.squeeze`: per-channel mean. -/
def globalAvgPool {K : Type} [LinearOrderedField K] {C H W : Nat}
    (x : Fin C → Fin H → Fin W → K) (c : Fin C) : K :=
  (∑ h : Fin H, ∑ w : Fin W, x c h w) / ((H : K) * (W : K))

/-- The per-channel gate computed by `SELayer.forward`:
`sigmoid(excitation(relu(squeeze(global_average_pool(input)))))`. -/
def seGateVal {K : Type} [LinearOrderedField K] (expf : K → K) {C med H W : Nat}
    (p : SEParams K C med) (x : Fin C → Fin H → Fin W → K) (c : Fin C) : K :=
  sigmoidK expf
    ((∑ m : Fin med, p.excitation_w c m *
        reluK ((∑ c2 : Fin C, p.squeeze_w m c2 * globalAvgPool x c2) +
          p.squeeze_b m)) +
      p.excitation_b c)

/-- Numeric model of `SELayer.forward`: the input multiplied elementwise by
the broadcast per-channel gate (`out = input * excitation`). -/
def seForwardNum {K : Type} [LinearOrderedField K] (expf : K → K) {C med H W : Nat}
    (p : SEParams K C med) (x : Fin C → Fin H → Fin W → K) :
    Fin C → Fin H → Fin W → K :=
  fun c h w => x c h w * seGateVal expf p x c

/-- Accessing a list at an in-range index with `[·]?` yields the `getD`
value, whatever the default. -/
theorem getElem?_eq_some_getD {α : Type} (l : List α) (j : Nat) (d : α)
    (h : j < l.length) : l[j]? = some (l.getD j d) := by
  rw [List.getElem?_eq_getElem h, List.getD_eq_getElem?_getD,
    List.getElem?_eq_getElem h]
  rfl

/-- The downsampling chain for `m = i - j` steps has exactly `m` layers. -/
theorem fuseDownChainAux_length (outI outJ : Nat) :
    ∀ m pre, (fuseDownChainAux outI outJ pre m).length = m := by
  intro m
  induction m using Nat.strong_induction_on with
  | _ m ih =>
    match m with
    | 0 => intro pre; rfl
    | 1 => intro pre; rfl
    | k + 2 =>
      intro pre
      have := ih (k + 1) (by omega) outJ
      simp only [fuseDownChainAux, List.length_cons, this]

/-- Length of `fuseDownChain`. -/
theorem fuseDownChain_length (in_ch out_ch : List Nat) (i j : Nat) :
    (fuseDownChain in_ch out_ch i j).length = i - j :=
  fuseDownChainAux_length _ _ _ _

/-- Element lookup exactly at the junction of an append. -/
theorem getElem?_append_cons {α : Type} :
    ∀ (pre : List α) (a : α) (l2 : List α), (pre ++ a :: l2)[pre.length]? = some a := by
  intro pre
  induction pre with
  | nil => intro a l2; simp
  | cons b bs ih => intro a l2; simpa using ih a l2

/-- Running `applyChain` over a chain embedded between `pre` and `rest`,
starting at index `pre.length` with fuel `chain.length`, applies exactly the
chain and stops at index `pre.length + chain.length`. -/
theorem applyChain_append (chain : List ConvBNSpec) :
    ∀ (pre rest : List ConvBNSpec) (x : Tensor),
      applyChain (pre ++ (chain ++ rest)) pre.length chain.length x =
        some (chainApply chain x, pre.length + chain.length) := by
  induction chain with
  | nil =>
    intro pre rest x
    simp [applyChain, chainApply]
  | cons c cs ih =>
    intro pre rest x
    have hget : (pre ++ c :: (cs ++ rest))[pre.length]? = some c :=
      getElem?_append_cons pre c (cs ++ rest)
    have hrec := ih (pre ++ [c]) rest (Tensor.convBN c x)
    simp only [List.append_assoc, List.cons_append, List.nil_append,
      List.length_append, List.length_cons, List.length_nil, Nat.zero_add] at hrec
    simp only [List.cons_append, List.length_cons, applyChain, hget]
    rw [hrec]
    simp only [Option.some.injEq, Prod.mk.injEq]
    exact ⟨rfl, by omega⟩

/-- Running the inner `j` loop of `FuseLayers.forward` over indices `js`,
with `residual_func_list` containing the corresponding segments between `pre`
and `rest` and `residual_func_idx = pre.length`, folds `fuseStep` over `js`
and advances the index by exactly the total segment length. -/
theorem fuseJLoop_append (in_ch out_ch : List Nat) (input : List Tensor) (i : Nat) :
    ∀ (js : List Nat), (∀ j ∈ js, j < input.length) →
      ∀ (pre rest : List ConvBNSpec) (residual : Tensor),
        fuseJLoop (pre ++ (js.flatMap (fuseSeg in_ch out_ch i) ++ rest)) input i
            js residual pre.length =
          some (js.foldl (fuseStep in_ch out_ch input i) residual,
            pre.length + (js.flatMap (fuseSeg in_ch out_ch i)).length) := by
  intro js
  induction js with
  | nil =>
    intro _ pre rest residual
    simp [fuseJLoop]
  | cons j js ih =>
    intro hmem pre rest residual
    have hj : j < input.length := hmem j (List.mem_cons_self _ _)
    have hmem2 : ∀ a ∈ js, a < input.length := fun a ha =>
      hmem a (List.mem_cons_of_mem _ ha)
    have hinp : input[j]? = some (input.getD j (Tensor.input 0)) :=
      getElem?_eq_some_getD input j (Tensor.input 0) hj
    simp only [fuseJLoop, List.foldl_cons]
    split_ifs with h1 h2
    · -- case j > i: one 1x1 layer is consumed
      have hseg : (j :: js).flatMap (fuseSeg in_ch out_ch i) =
          (⟨in_ch.getD j 0, out_ch.getD i 0, 1, 1, none⟩ : ConvBNSpec) ::
            js.flatMap (fuseSeg in_ch out_ch i) := by
        simp [fuseSeg, h1]
      rw [hseg]
      simp only [List.cons_append, getElem?_append_cons, hinp]
      have hrec := ih hmem2
        (pre ++ [(⟨in_ch.getD j 0, out_ch.getD i 0, 1, 1, none⟩ : ConvBNSpec)]) rest
        (Tensor.add residual
          (Tensor.upsample (2 ^ (j - i)) nearestStr
            (Tensor.convBN ⟨in_ch.getD j 0, out_ch.getD i 0, 1, 1, none⟩
              (input.getD j (Tensor.input 0)))))
      simp only [List.append_assoc, List.cons_append, List.nil_append,
        List.length_append, List.length_cons, List.length_nil, Nat.zero_add] at hrec
      rw [hrec]
      simp only [Option.some.injEq, Prod.mk.injEq, List.length_cons]
      constructor
      · rw [fuseStep, if_pos h1]
      · omega
    · -- case j < i: the downsampling chain is consumed
      have hseg : (j :: js).flatMap (fuseSeg in_ch out_ch i) =
          fuseDownChain in_ch out_ch i j ++ js.flatMap (fuseSeg in_ch out_ch i) := by
        have : ¬ j > i := h1
        simp [fuseSeg, h2, this]
      rw [hseg]
      simp only [hinp]
      have hchain := applyChain_append (fuseDownChain in_ch out_ch i j) pre
        (js.flatMap (fuseSeg in_ch out_ch i) ++ rest)
        (input.getD j (Tensor.input 0))
      rw [← fuseDownChain_length in_ch out_ch i j, List.append_assoc]
      simp only [hchain]
      have hrec := ih hmem2 (pre ++ fuseDownChain in_ch out_ch i j) rest
        (Tensor.add residual
          (chainApply (fuseDownChain in_ch out_ch i j) (input.getD j (Tensor.input 0))))
      simp only [List.append_assoc, List.length_append] at hrec
      rw [hrec]
      simp only [Option.some.injEq, Prod.mk.injEq, List.length_append]
      constructor
      · rw [fuseStep, if_neg (by omega : ¬ j > i), if_pos h2]
      · rw [fuseDownChain_length]
        omega
    · -- case j = i: nothing is consumed
      have hji : j = i := by omega
      have hseg : (j :: js).flatMap (fuseSeg in_ch out_ch i) =
          js.flatMap (fuseSeg in_ch out_ch i) := by
        simp [fuseSeg, hji]
      rw [hseg]
      have hrec := ih hmem2 pre rest residual
      rw [hrec]
      simp only [Option.some.injEq, Prod.mk.injEq]
      constructor
      · rw [fuseStep, if_neg (by omega : ¬ j > i), if_neg (by omega : ¬ j < i)]
      · trivial

/-- Running the outer `i` loop of `FuseLayers.forward` over output indices
`is`, with the corresponding rows of `residual_func_list` between `pre` and
`rest`, produces the closed-form outputs `fuseOut` and advances
`residual_func_idx` by exactly the total row length. -/
theorem fuseILoop_append (in_ch out_ch : List Nat) (input : List Tensor)
    (hlen : input.length = in_ch.length) :
    ∀ (is : List Nat), (∀ i ∈ is, i < input.length) →
      ∀ (pre rest : List ConvBNSpec),
        fuseILoop (pre ++ (is.flatMap (fuseRow in_ch out_ch) ++ rest)) input
            in_ch.length is pre.length =
          some (is.map (fuseOut in_ch out_ch input),
            pre.length + (is.flatMap (fuseRow in_ch out_ch)).length) := by
  intro is
  induction is with
  | nil =>
    intro _ pre rest
    simp [fuseILoop]
  | cons i is ih =>
    intro hmem pre rest
    have hi : i < input.length := hmem i (List.mem_cons_self _ _)
    have hmem2 : ∀ a ∈ is, a < input.length := fun a ha =>
      hmem a (List.mem_cons_of_mem _ ha)
    have hinp : input[i]? = some (input.getD i (Tensor.input 0)) :=
      getElem?_eq_some_getD input i (Tensor.input 0) hi
    have hseg : (i :: is).flatMap (fuseRow in_ch out_ch) =
        fuseRow in_ch out_ch i ++ is.flatMap (fuseRow in_ch out_ch) := by
      simp
    rw [hseg, List.append_assoc]
    simp only [fuseILoop, List.map_cons, fuseRow]
    simp only [hinp]
    have hjmem : ∀ j ∈ List.range in_ch.length, j < input.length := by
      intro j hj
      rw [hlen]
      exact List.mem_range.mp hj
    have hj := fuseJLoop_append in_ch out_ch input i (List.range in_ch.length) hjmem
      pre (is.flatMap (fuseRow in_ch out_ch) ++ rest) (input.getD i (Tensor.input 0))
    simp only [hj]
    have hrec := ih hmem2
      (pre ++ (List.range in_ch.length).flatMap (fuseSeg in_ch out_ch i)) rest
    simp only [List.append_assoc, List.length_append] at hrec
    rw [hrec]
    simp only [Option.some.injEq, Prod.mk.injEq, List.length_append, fuseRow]
    constructor
    · rw [fuseOut]
    · omega

/-- Instantiation of the loop lemmas to the whole of `FuseLayers.forward`:
the loop succeeds, produces the closed-form outputs, and its final
`residual_func_idx` is the length of the constructed `residual_func_list`. -/
theorem fuse_forward_master (in_ch out_ch : List Nat) (actual : Nat)
    (input : List Tensor) (h1 : input.length = in_ch.length)
    (h2 : actual ≤ input.length) :
    fuseILoop (fuseBuild in_ch out_ch actual) input in_ch.length
        (List.range actual) 0 =
      some ((List.range actual).map (fuseOut in_ch out_ch input),
        (fuseBuild in_ch out_ch actual).length) := by
  have hmem : ∀ i ∈ List.range actual, i < input.length := fun i hi =>
    lt_of_lt_of_le (List.mem_range.mp hi) h2
  have h := fuseILoop_append in_ch out_ch input h1 (List.range actual) hmem [] []
  simpa [fuseBuild] using h

/-- C1: in `FuseLayers.forward`, for every output branch index `i` and input
branch index `j > i`, the lower-resolution input `input[j]` goes through a
1x1 `ConvBNLayer` and is then upsampled by nearest-neighbour interpolation
with scale factor `2^(j-i)` before being added into output `i`; each fused
output is the relu of the branch's own value plus the resampled contribution
of every other branch (`fuseOut`/`fuseStep` spell this out, with the
downsampling chains for `j < i`). -/
theorem FuseLayers.forward_fusion_formula (in_ch out_ch : List Nat) (mso : Bool)
    (input : List Tensor) (h1 : input.length = in_ch.length)
    (h2 : (FuseLayers.init in_ch out_ch mso).actual_ch ≤ input.length) :
    (FuseLayers.init in_ch out_ch mso).forward input =
      some ((List.range (FuseLayers.init in_ch out_ch mso).actual_ch).map
        (fuseOut in_ch out_ch input)) := by
  have hm := fuse_forward_master in_ch out_ch
    ((FuseLayers.init in_ch out_ch mso).actual_ch) input h1 h2
  unfold FuseLayers.forward FuseLayers.forwardAux
  rw [show (FuseLayers.init in_ch out_ch mso).residual_func_list =
      fuseBuild in_ch out_ch ((FuseLayers.init in_ch out_ch mso).actual_ch) from rfl,
    show (FuseLayers.init in_ch out_ch mso).in_channels = in_ch from rfl]
  rw [hm]
  rfl

/-- C1 witness: the formula evaluated on a two-branch fusion layer. -/
theorem FuseLayers.forward_fusion_formula_witness :
    (FuseLayers.init [4, 8] [4, 8] true).forward [Tensor.input 0, Tensor.input 1] =
      some ((List.range (FuseLayers.init [4, 8] [4, 8] true).actual_ch).map
        (fuseOut [4, 8] [4, 8] [Tensor.input 0, Tensor.input 1])) :=
  FuseLayers.forward_fusion_formula [4, 8] [4, 8] true
    [Tensor.input 0, Tensor.input 1] rfl (by decide)

/-- C8: the number of `ConvBNLayer`s appended to `residual_func_list` by
`FuseLayers.__init__` equals the number of times `forward` increments
`residual_func_idx`: the instrumented forward pass succeeds (every access
`residual_func_list[residual_func_idx]` is in bounds) and finishes with
`residual_func_idx` equal to the length of `residual_func_list`, so each
constructed module is consumed exactly once per call. -/
theorem FuseLayers.forward_index_safety (in_ch out_ch : List Nat) (mso : Bool)
    (input : List Tensor) (h1 : input.length = in_ch.length)
    (h2 : (FuseLayers.init in_ch out_ch mso).actual_ch ≤ input.length) :
    ∃ outs, (FuseLayers.init in_ch out_ch mso).forwardAux input =
      some (outs, (FuseLayers.init in_ch out_ch mso).residual_func_list.length) := by
  refine ⟨(List.range (FuseLayers.init in_ch out_ch mso).actual_ch).map
    (fuseOut in_ch out_ch input), ?_⟩
  have hm := fuse_forward_master in_ch out_ch
    ((FuseLayers.init in_ch out_ch mso).actual_ch) input h1 h2
  unfold FuseLayers.forwardAux
  rw [show (FuseLayers.init in_ch out_ch mso).residual_func_list =
      fuseBuild in_ch out_ch ((FuseLayers.init in_ch out_ch mso).actual_ch) from rfl,
    show (FuseLayers.init in_ch out_ch mso).in_channels = in_ch from rfl]
  exact hm

/-- C8 witness: index safety on a three-branch fusion layer. -/
theorem FuseLayers.forward_index_safety_witness :
    ∃ outs, (FuseLayers.init [4, 8, 16] [4, 8, 16] true).forwardAux
        [Tensor.input 0, Tensor.input 1, Tensor.input 2] =
      some (outs,
        (FuseLayers.init [4, 8, 16] [4, 8, 16] true).residual_func_list.length) :=
  FuseLayers.forward_index_safety [4, 8, 16] [4, 8, 16] true
    [Tensor.input 0, Tensor.input 1, Tensor.input 2] rfl (by decide)

/-- Behaviour of the `TransitionLayer.forward` loop: given a nonempty input,
and provided every `None` entry sits at an index inside the input list, the
loop succeeds; `None` entries copy the input unchanged, `Some` entries apply
their conv-bn layer to `x[idx]` (or to `x[-1]` when `idx` is past the end of
the input). -/
theorem transitionGo_spec (x : List Tensor) (hx : 1 ≤ x.length) :
    ∀ (fs : List (Option ConvBNSpec)) (idx : Nat),
      (∀ k, k < fs.length → fs.getD k none = none → idx + k < x.length) →
      ∃ outs, transitionGo x fs idx = some outs ∧ outs.length = fs.length ∧
        (∀ k, k < fs.length → fs.getD k none = none →
          outs.getD k (Tensor.input 0) = x.getD (idx + k) (Tensor.input 0)) ∧
        (∀ k g, k < fs.length → fs.getD k none = some g →
          outs.getD k (Tensor.input 0) = Tensor.convBN g
            (if idx + k < x.length then x.getD (idx + k) (Tensor.input 0)
             else x.getD (x.length - 1) (Tensor.input 0))) := by
  intro fs
  induction fs with
  | nil =>
    intro idx _
    exact ⟨[], rfl, rfl, fun k hk => absurd hk (by simp), fun k g hk => absurd hk (by simp)⟩
  | cons f fs ih =>
    intro idx hcond
    have hcond2 : ∀ k, k < fs.length → fs.getD k none = none → idx + 1 + k < x.length := by
      intro k hk hnone
      have := hcond (k + 1) (by simpa using Nat.succ_lt_succ hk) (by simpa using hnone)
      omega
    obtain ⟨outs, ho, hlen, hnone, hsome⟩ := ih (idx + 1) hcond2
    match f with
    | none =>
      have h0 : idx < x.length := by
        have := hcond 0 (by simp) (by simp)
        omega
      have hinp : x[idx]? = some (x.getD idx (Tensor.input 0)) :=
        getElem?_eq_some_getD x idx (Tensor.input 0) h0
      refine ⟨x.getD idx (Tensor.input 0) :: outs, ?_, by simpa using hlen, ?_, ?_⟩
      · simp only [transitionGo, hinp, ho]
        rfl
      · intro k hk hk2
        match k with
        | 0 => simp
        | k + 1 =>
          have := hnone k (by simpa using hk) (by simpa using hk2)
          simp only [List.getD_cons_succ, this]
          have : idx + 1 + k = idx + (k + 1) := by omega
          rw [this]
      · intro k g hk hk2
        match k with
        | 0 => simp at hk2
        | k + 1 =>
          have := hsome k g (by simpa using hk) (by simpa using hk2)
          simp only [List.getD_cons_succ, this]
          have h3 : idx + 1 + k = idx + (k + 1) := by omega
          rw [h3]
    | some g =>
      have hlast : x.getLast? = some (x.getD (x.length - 1) (Tensor.input 0)) := by
        rw [List.getLast?_eq_getElem?]
        exact getElem?_eq_some_getD x (x.length - 1) (Tensor.input 0) (by omega)
      have hsrc : (if idx < x.length then x[idx]? else x.getLast?) =
          some (if idx < x.length then x.getD idx (Tensor.input 0)
            else x.getD (x.length - 1) (Tensor.input 0)) := by
        by_cases hidx : idx < x.length
        · rw [if_pos hidx, if_pos hidx]
          exact getElem?_eq_some_getD x idx (Tensor.input 0) hidx
        · rw [if_neg hidx, if_neg hidx]
          exact hlast
      refine ⟨Tensor.convBN g (if idx < x.length then x.getD idx (Tensor.input 0)
          else x.getD (x.length - 1) (Tensor.input 0)) :: outs, ?_,
        by simpa using hlen, ?_, ?_⟩
      · simp only [transitionGo, hsrc, ho]
        rfl
      · intro k hk hk2
        match k with
        | 0 => simp at hk2
        | k + 1 =>
          have := hnone k (by simpa using hk) (by simpa using hk2)
          simp only [List.getD_cons_succ, this]
          have h3 : idx + 1 + k = idx + (k + 1) := by omega
          rw [h3]
      · intro k g2 hk hk2
        match k with
        | 0 =>
          simp only [List.getD_cons_zero] at hk2
          cases hk2
          simp only [List.getD_cons_zero, Nat.add_zero]
        | k + 1 =>
          have := hsome k g2 (by simpa using hk) (by simpa using hk2)
          simp only [List.getD_cons_succ, this]
          have h3 : idx + 1 + k = idx + (k + 1) := by omega
          rw [h3]

/-- `getD` through a `map` over `List.range`. -/
theorem getD_map_range {α : Type} (n k : Nat) (g : Nat → α) (d : α) (hk : k < n) :
    ((List.range n).map g).getD k d = g k := by
  rw [List.getD_eq_getElem?_getD, List.getElem?_map, List.getElem?_range hk]
  rfl

/-- C9: for every `TransitionLayer` and branch index `i < len(in_channels)`
with `in_channels[i] == out_channels[i]`, `forward` stores `None` for that
branch and returns `x[i]` unchanged at position `i`; for every new branch
index `i >= len(in_channels)` the output at `i` is a stride-2 3x3
`ConvBNLayer` applied to the last input `x[-1]`; and the output list always
has length `len(out_channels)`. -/
theorem TransitionLayer.forward_spec (in_ch out_ch : List Nat) (x : List Tensor)
    (hlen : x.length = in_ch.length) (hx : 1 ≤ x.length) :
    ∃ outs, (TransitionLayer.init in_ch out_ch).forward x = some outs ∧
      outs.length = out_ch.length ∧
      (∀ i, i < in_ch.length → i < out_ch.length →
        in_ch.getD i 0 = out_ch.getD i 0 →
        (TransitionLayer.init in_ch out_ch).conv_bn_func_list.getD i none = none ∧
        outs.getD i (Tensor.input 0) = x.getD i (Tensor.input 0)) ∧
      (∀ i, in_ch.length ≤ i → i < out_ch.length →
        outs.getD i (Tensor.input 0) =
          Tensor.convBN
            ⟨in_ch.getD (in_ch.length - 1) 0, out_ch.getD i 0, 3, 2, some reluStr⟩
            (x.getD (x.length - 1) (Tensor.input 0))) := by
  have hfs : (TransitionLayer.init in_ch out_ch).conv_bn_func_list =
      (List.range out_ch.length).map (fun i =>
        if i < in_ch.length then
          if in_ch.getD i 0 ≠ out_ch.getD i 0 then
            some ⟨in_ch.getD i 0, out_ch.getD i 0, 3, 1, some reluStr⟩
          else none
        else
          some ⟨in_ch.getD (in_ch.length - 1) 0, out_ch.getD i 0, 3, 2,
            some reluStr⟩) := rfl
  have hfs_len : (TransitionLayer.init in_ch out_ch).conv_bn_func_list.length =
      out_ch.length := by
    rw [hfs]
    simp
  have hcond : ∀ k, k < (TransitionLayer.init in_ch out_ch).conv_bn_func_list.length →
      (TransitionLayer.init in_ch out_ch).conv_bn_func_list.getD k none = none →
      0 + k < x.length := by
    intro k hk hn
    rw [hfs_len] at hk
    rw [hfs, getD_map_range _ k _ none hk] at hn
    by_cases hkin : k < in_ch.length
    · omega
    · rw [if_neg hkin] at hn
      exact absurd hn (by simp)
  obtain ⟨outs, ho, holen, hnone, hsome⟩ :=
    transitionGo_spec x hx (TransitionLayer.init in_ch out_ch).conv_bn_func_list 0 hcond
  refine ⟨outs, ho, by rw [holen, hfs_len], ?_, ?_⟩
  · intro i h1 h2 heq
    have hn : (TransitionLayer.init in_ch out_ch).conv_bn_func_list.getD i none = none := by
      rw [hfs, getD_map_range _ i _ none h2, if_pos h1, if_neg (by simpa using heq)]
    refine ⟨hn, ?_⟩
    have := hnone i (by rw [hfs_len]; exact h2) hn
    simpa using this
  · intro i h1 h2
    have hs : (TransitionLayer.init in_ch out_ch).conv_bn_func_list.getD i none =
        some ⟨in_ch.getD (in_ch.length - 1) 0, out_ch.getD i 0, 3, 2, some reluStr⟩ := by
      rw [hfs, getD_map_range _ i _ none h2, if_neg (by omega)]
    have := hsome i _ (by rw [hfs_len]; exact h2) hs
    simp only [Nat.zero_add] at this
    rw [this, if_neg (by omega)]

/-- C9 witness: `TransitionLayer([4], [4, 8])` on a single input copies the
matching branch and builds the new branch from the last input. -/
theorem TransitionLayer.forward_spec_witness :
    ∃ outs, (TransitionLayer.init [4] [4, 8]).forward [Tensor.input 7] = some outs ∧
      outs.length = [4, 8].length ∧
      (∀ i, i < [4].length → i < [4, 8].length →
        [4].getD i 0 = [4, 8].getD i 0 →
        (TransitionLayer.init [4] [4, 8]).conv_bn_func_list.getD i none = none ∧
        outs.getD i (Tensor.input 0) = [Tensor.input 7].getD i (Tensor.input 0)) ∧
      (∀ i, [4].length ≤ i → i < [4, 8].length →
        outs.getD i (Tensor.input 0) =
          Tensor.convBN
            ⟨[4].getD ([4].length - 1) 0, [4, 8].getD i 0, 3, 2, some reluStr⟩
            ([Tensor.input 7].getD ([Tensor.input 7].length - 1) (Tensor.input 0))) :=
  TransitionLayer.forward_spec [4] [4, 8] [Tensor.input 7] rfl (by decide)

/-- The squeeze-excitation gate preserves the channel count of its input. -/
theorem chOf_seApply (env : Nat → Nat) (hs : Bool) (se : Option SELayer) (y : Tensor) :
    chOf env (seApply hs se y) = chOf env y := by
  cases hs <;> cases se <;> simp [seApply, chOf]

/-- C4: every `BottleneckBlock` expands its channel count by a factor of 4:
`conv3` produces `num_filters * 4` output channels, and with `downsample`
set, `conv_down` is the 1x1 projection to `num_filters * 4` channels, so the
two arguments of the residual `paddle.add` have equal channel count
(`num_filters * 4`), for any assignment of input channel counts. -/
theorem BottleneckBlock.expansion (nc nf : Nat) (hs : Bool) (st : Nat)
    (ds : Bool) (env : Nat → Nat) (x : Tensor) :
    (BottleneckBlock.init nc nf hs st ds).conv3.num_filters = nf * 4 ∧
    (BottleneckBlock.init nc nf hs st true).conv_down =
      some ⟨nc, nf * 4, 1, 1, none⟩ ∧
    ∃ r c, (BottleneckBlock.init nc nf hs st true).forward x =
        Tensor.relu (Tensor.add r c) ∧
      chOf env r = nf * 4 ∧ chOf env c = nf * 4 := by
  refine ⟨rfl, by simp [BottleneckBlock.init], ?_⟩
  refine ⟨Tensor.convBN ⟨nc, nf * 4, 1, 1, none⟩ x,
    seApply (BottleneckBlock.init nc nf hs st true).has_se
      (BottleneckBlock.init nc nf hs st true).se
      (Tensor.convBN (BottleneckBlock.init nc nf hs st true).conv3
        (Tensor.convBN (BottleneckBlock.init nc nf hs st true).conv2
          (Tensor.convBN (BottleneckBlock.init nc nf hs st true).conv1 x))),
    ?_, rfl, ?_⟩
  · simp [BottleneckBlock.forward, BottleneckBlock.init, downApply]
  · rw [chOf_seApply]
    rfl

/-- C5: every `SELayer` instantiated in this file is built with
`reduction_ratio=16`: a `BottleneckBlock` with `has_se` passes
`num_filters * 4` channels, a `BasicBlock` with `has_se` passes
`num_filters` channels, and an `SELayer` built with ratio 16 has its squeeze
`Linear` mapping `num_channels` inputs to `num_channels / 16` (floor)
intermediate features. -/
theorem SELayer.reduction_sixteen (nc nf st : Nat) (ds : Bool) (c f : Nat) :
    (BottleneckBlock.init nc nf true st ds).se =
      some (SELayer.init (nf * 4) (nf * 4) 16) ∧
    (BasicBlock.init nc nf st true ds).se = some (SELayer.init nf nf 16) ∧
    (SELayer.init c f 16).reduction = 16 ∧
    (SELayer.init c f 16).squeeze_in = c ∧
    (SELayer.init c f 16).squeeze_out = c / 16 :=
  ⟨by simp [BottleneckBlock.init], by simp [BasicBlock.init], rfl, rfl, rfl⟩

/-- C10: every `BasicBlock` built by `Branches.__init__` has
`downsample=False` (the argument is never passed), hence no `conv_down`
sublayer, and its `forward` adds the unmodified block input as the residual;
had `downsample` been set, `conv_down` would produce `num_filters * 4`
channels, which differs from `conv2`'s `num_filters` output channels. -/
theorem Branches.no_downsample (block_num : Nat) (in_ch out_ch : List Nat)
    (hs : Bool) (row : List BasicBlock) (b : BasicBlock) (x : Tensor)
    (nc nf st : Nat) (hs2 : Bool)
    (hrow : row ∈ (Branches.init block_num in_ch out_ch hs).basic_block_list)
    (hb : b ∈ row) (hnf : 0 < nf) :
    b.downsample = false ∧ b.conv_down = none ∧
    b.forward x = Tensor.relu (Tensor.add x
      (seApply b.has_se b.se (Tensor.convBN b.conv2 (Tensor.convBN b.conv1 x)))) ∧
    (BasicBlock.init nc nf st hs2 true).conv_down =
      some ⟨nc, nf * 4, 1, 1, some reluStr⟩ ∧
    nf * 4 ≠ (BasicBlock.init nc nf st hs2 true).conv2.num_filters := by
  rw [show (Branches.init block_num in_ch out_ch hs).basic_block_list =
      (List.range out_ch.length).map (fun i => (List.range block_num).map (fun j =>
        BasicBlock.init
          (if j = 0 then in_ch.getD i 0 else out_ch.getD i 0)
          (out_ch.getD i 0) 1 hs false)) from rfl] at hrow
  obtain ⟨i, hi, rfl⟩ := List.mem_map.mp hrow
  obtain ⟨j, hj, rfl⟩ := List.mem_map.mp hb
  refine ⟨rfl, by simp [BasicBlock.init], ?_, by simp [BasicBlock.init], ?_⟩
  · simp [BasicBlock.forward, downApply, BasicBlock.init]
  · show nf * 4 ≠ nf
    omega

/-- C10 witness: the single block of `Branches(1, [4], [4], False)`. -/
theorem Branches.no_downsample_witness :
    (BasicBlock.init 4 4 1 false false).downsample = false ∧
    (BasicBlock.init 4 4 1 false false).conv_down = none ∧
    (BasicBlock.init 4 4 1 false false).forward (Tensor.input 0) =
      Tensor.relu (Tensor.add (Tensor.input 0)
        (seApply (BasicBlock.init 4 4 1 false false).has_se
          (BasicBlock.init 4 4 1 false false).se
          (Tensor.convBN (BasicBlock.init 4 4 1 false false).conv2
            (Tensor.convBN (BasicBlock.init 4 4 1 false false).conv1
              (Tensor.input 0))))) ∧
    (BasicBlock.init 7 5 1 true true).conv_down =
      some ⟨7, 5 * 4, 1, 1, some reluStr⟩ ∧
    5 * 4 ≠ (BasicBlock.init 7 5 1 true true).conv2.num_filters :=
  Branches.no_downsample 1 [4] [4] false [BasicBlock.init 4 4 1 false false]
    (BasicBlock.init 4 4 1 false false) (Tensor.input 0) 7 5 1 true
    (by decide) (by decide) (by decide)

/-- The `Stage.forward` loop, run over a list of modules embedded between
`pre` and `rest` with starting index `pre.length` and fuel `l.length`, is
exactly the sequential application of the modules in `l`. -/
theorem stageLoop_append (l : List HighResolutionModule) :
    ∀ (pre rest : List HighResolutionModule) (out : List Tensor),
      stageLoop (pre ++ (l ++ rest)) pre.length l.length out = applyModules l out := by
  induction l with
  | nil =>
    intro pre rest out
    rfl
  | cons f fs ih =>
    intro pre rest out
    have hget : (pre ++ f :: (fs ++ rest))[pre.length]? = some f :=
      getElem?_append_cons pre f (fs ++ rest)
    simp only [List.cons_append, List.length_cons, stageLoop, hget]
    cases hf : f.forward out with
    | none => simp [applyModules, hf]
    | some y =>
      have hrec := ih (pre ++ [f]) rest y
      simp only [List.append_assoc, List.cons_append, List.nil_append,
        List.length_append, List.length_cons, List.length_nil, Nat.zero_add] at hrec
      simp [applyModules, hf, hrec]

/-- C3: `HRNet.__init__` composes stage 2 of 1, stage 3 of 4 and stage 4 of 3
`HighResolutionModule`s; `Stage.forward` applies exactly its `num_modules`
modules sequentially to the list of branch tensors; and module `i` of a stage
is built with `multi_scale_output=False` exactly when it is the last module
and `multi_scale_output` was requested off. -/
theorem Stage.composition (hs0 : Bool) (cd w : Nat) (nc nf : List Nat)
    (nm : Nat) (hs mso : Bool) (input : List Tensor) (i : Nat)
    (hw : w ∈ [18, 30, 32, 40, 44, 48, 60, 64]) (hi : i < nm) :
    (HRNet.init w hs0 cd).map (fun m =>
      (m.st2.num_modules, m.st3.num_modules, m.st4.num_modules)) = some (1, 4, 3) ∧
    (Stage.init nc nm nf hs mso).stage_func_list.length = nm ∧
    (Stage.init nc nm nf hs mso).forward input =
      applyModules (Stage.init nc nm nf hs mso).stage_func_list input ∧
    (Stage.init nc nm nf hs mso).stage_func_list.getD i default =
      (if i = nm - 1 ∧ mso = false then
        HighResolutionModule.init nc nf hs false
      else HighResolutionModule.init nc nf hs true) := by
  have hlen : (Stage.init nc nm nf hs mso).stage_func_list.length = nm := by
    simp [Stage.init]
  refine ⟨?_, hlen, ?_, ?_⟩
  · simp only [List.mem_cons, List.not_mem_nil, or_false] at hw
    rcases hw with rfl | rfl | rfl | rfl | rfl | rfl | rfl | rfl <;> rfl
  · have h := stageLoop_append (Stage.init nc nm nf hs mso).stage_func_list [] [] input
    simp only [List.nil_append, List.append_nil, List.length_nil] at h
    rw [hlen] at h
    unfold Stage.forward
    exact h
  · rw [show (Stage.init nc nm nf hs mso).stage_func_list =
        (List.range nm).map (fun k =>
          if k = nm - 1 ∧ mso = false then
            HighResolutionModule.init nc nf hs false
          else HighResolutionModule.init nc nf hs true) from rfl,
      getD_map_range _ i _ default hi]

/-- C3 witness: width 18, and a two-module stage with `multi_scale_output`
off, checked at its last module. -/
theorem Stage.composition_witness :
    (HRNet.init 18 false 10).map (fun m =>
      (m.st2.num_modules, m.st3.num_modules, m.st4.num_modules)) = some (1, 4, 3) ∧
    (Stage.init [4] 2 [4] false false).stage_func_list.length = 2 ∧
    (Stage.init [4] 2 [4] false false).forward [Tensor.input 0] =
      applyModules (Stage.init [4] 2 [4] false false).stage_func_list
        [Tensor.input 0] ∧
    (Stage.init [4] 2 [4] false false).stage_func_list.getD 1 default =
      (if 1 = 2 - 1 ∧ false = false then
        HighResolutionModule.init [4] [4] false false
      else HighResolutionModule.init [4] [4] false true) :=
  Stage.composition false 10 18 [4] [4] 2 false false [Tensor.input 0] 1
    (by decide) (by decide)

/-- C2: for every width `w` in {18, 30, 32, 40, 44, 48, 60, 64} the
constructors `HRNet_W{w}_C` and `SE_HRNet_W{w}_C` build an `HRNet` whose
per-stage channel lists are `[w, 2w]`, `[w, 2w, 4w]` and `[w, 2w, 4w, 8w]`;
the channels table supports no other width (`KeyError`, modelled by
`none`). -/
theorem HRNet.channel_widths (hs : Bool) (cd v : Nat)
    (hv : v ∉ [18, 30, 32, 40, 44, 48, 60, 64]) :
    widthChannels (HRNet_W18_C hs cd) 18 ∧ widthChannels (SE_HRNet_W18_C cd) 18 ∧
    widthChannels (HRNet_W30_C hs cd) 30 ∧ widthChannels (SE_HRNet_W30_C cd) 30 ∧
    widthChannels (HRNet_W32_C hs cd) 32 ∧ widthChannels (SE_HRNet_W32_C cd) 32 ∧
    widthChannels (HRNet_W40_C hs cd) 40 ∧ widthChannels (SE_HRNet_W40_C cd) 40 ∧
    widthChannels (HRNet_W44_C hs cd) 44 ∧ widthChannels (SE_HRNet_W44_C cd) 44 ∧
    widthChannels (HRNet_W48_C hs cd) 48 ∧ widthChannels (SE_HRNet_W48_C cd) 48 ∧
    widthChannels (HRNet_W60_C hs cd) 60 ∧ widthChannels (SE_HRNet_W60_C cd) 60 ∧
    widthChannels (HRNet_W64_C hs cd) 64 ∧ widthChannels (SE_HRNet_W64_C cd) 64 ∧
    channelsTable v = none := by
  refine ⟨rfl, rfl, rfl, rfl, rfl, rfl, rfl, rfl, rfl, rfl, rfl, rfl, rfl, rfl,
    rfl, rfl, ?_⟩
  simp only [List.mem_cons, List.not_mem_nil, or_false, not_or] at hv
  simp only [channelsTable]
  split_ifs with h1 h2 h3 h4 h5 h6 h7 h8 <;> first | rfl | omega

/-- C2 witness: width 19 is rejected, width 18 gives the table row. -/
theorem HRNet.channel_widths_witness :
    widthChannels (HRNet_W18_C false 10) 18 ∧
    widthChannels (SE_HRNet_W18_C 10) 18 ∧
    widthChannels (HRNet_W30_C false 10) 30 ∧
    widthChannels (SE_HRNet_W30_C 10) 30 ∧
    widthChannels (HRNet_W32_C false 10) 32 ∧
    widthChannels (SE_HRNet_W32_C 10) 32 ∧
    widthChannels (HRNet_W40_C false 10) 40 ∧
    widthChannels (SE_HRNet_W40_C 10) 40 ∧
    widthChannels (HRNet_W44_C false 10) 44 ∧
    widthChannels (SE_HRNet_W44_C 10) 44 ∧
    widthChannels (HRNet_W48_C false 10) 48 ∧
    widthChannels (SE_HRNet_W48_C 10) 48 ∧
    widthChannels (HRNet_W60_C false 10) 60 ∧
    widthChannels (SE_HRNet_W60_C 10) 60 ∧
    widthChannels (HRNet_W64_C false 10) 64 ∧
    widthChannels (SE_HRNet_W64_C 10) 64 ∧
    channelsTable 19 = none :=
  HRNet.channel_widths false 10 19 (by decide)

/-- C6: `HRNet.forward` is a deterministic function of the input and the
recorded parameters: two evaluations on equal inputs yield equal outputs.
The embedding is a pure function of the module record and the input, which
is faithful to the source because `forward` reads but never writes module
state. -/
theorem HRNet.forward_deterministic (m : HRNet) (x1 x2 : Tensor) (h : x1 = x2) :
    m.forward x1 = m.forward x2 := by
  rw [h]

/-- C6 witness: the width-18 network evaluated twice on the same input. -/
theorem HRNet.forward_deterministic_witness :
    ((HRNet.init 18 false 10).getD default).forward (Tensor.input 0) =
      ((HRNet.init 18 false 10).getD default).forward (Tensor.input 0) :=
  HRNet.forward_deterministic ((HRNet.init 18 false 10).getD default)
    (Tensor.input 0) (Tensor.input 0) rfl

/-- C7: `SELayer.forward` returns its input multiplied elementwise by the
broadcast per-channel gate
`sigmoid(excitation(relu(squeeze(global_average_pool(input)))))`; the output
is defined on the same index space as the input, and each channel is scaled
by a factor strictly between 0 and 1 (for any exponential with positive
values, in particular the real `exp`). -/
theorem SELayer.forward_gate_range (K : Type) [LinearOrderedField K]
    (expf : K → K) (hexp : ∀ t : K, 0 < expf t) (C med H W : Nat)
    (p : SEParams K C med) (x : Fin C → Fin H → Fin W → K)
    (c : Fin C) (h : Fin H) (w : Fin W) :
    seForwardNum expf p x c h w = x c h w * seGateVal expf p x c ∧
    0 < seGateVal expf p x c ∧ seGateVal expf p x c < 1 := by
  have key : ∀ t : K, 0 < sigmoidK expf t ∧ sigmoidK expf t < 1 := by
    intro t
    have he := hexp (-t)
    unfold sigmoidK
    constructor
    · exact one_div_pos.mpr (by linarith)
    · rw [div_lt_one (by linarith)]
      linarith
  exact ⟨rfl, (key _).1, (key _).2⟩

/-- C7 witness: the gate over the reals with the genuine exponential, at the
zero parameters and zero input on a 1x1x1 tensor. -/
theorem SELayer.forward_gate_range_witness :
    seForwardNum Real.exp
        (⟨fun _ _ => 0, fun _ => 0, fun _ _ => 0, fun _ => 0⟩ : SEParams ℝ 1 1)
        (fun (_ : Fin 1) (_ : Fin 1) (_ : Fin 1) => (0 : ℝ)) 0 0 0 =
      (fun (_ : Fin 1) (_ : Fin 1) (_ : Fin 1) => (0 : ℝ)) 0 0 0 *
        seGateVal Real.exp
          (⟨fun _ _ => 0, fun _ => 0, fun _ _ => 0, fun _ => 0⟩ : SEParams ℝ 1 1)
          (fun (_ : Fin 1) (_ : Fin 1) (_ : Fin 1) => (0 : ℝ)) 0 ∧
    0 < seGateVal Real.exp
        (⟨fun _ _ => 0, fun _ => 0, fun _ _ => 0, fun _ => 0⟩ : SEParams ℝ 1 1)
        (fun (_ : Fin 1) (_ : Fin 1) (_ : Fin 1) => (0 : ℝ)) 0 ∧
    seGateVal Real.exp
        (⟨fun _ _ => 0, fun _ => 0, fun _ _ => 0, fun _ => 0⟩ : SEParams ℝ 1 1)
        (fun (_ : Fin 1) (_ : Fin 1) (_ : Fin 1) => (0 : ℝ)) 0 < 1 :=
  SELayer.forward_gate_range ℝ Real.exp (fun t => Real.exp_pos t) 1 1 1 1
    ⟨fun _ _ => 0, fun _ => 0, fun _ _ => 0, fun _ => 0⟩ (fun (_ : Fin 1) (_ : Fin 1) (_ : Fin 1) => (0 : ℝ)) 0 0 0
